import Mathlib

/-!
Shallow embedding of the review platform's core logic, translated from the
repository's source files:

* `src/backend/src/services/aiService.js` — the heuristic fallback analyzer
  (`AIService.fallbackAnalysis`, `AIService.extractKeywords`);
* `src/unnamed/part_002` and `src/src/services/blockchainService.ts` —
  `BlockchainService.generateHash` (canonical JSON + SHA-256, `0x` prefixed);
* `src/backend/src/controllers/reviewController.js` — the review endpoints
  (`getReviews`, `getReview`, `createReview`, `updateReviewStatus`,
  `markHelpful`, `processReviewWithAI`) with the Review schema defaults of
  `src/backend/src/routes/analyticsRoutes.js` (the mongoose `reviewSchema`);
* `src/src/services/api.ts` — the client retry logic
  (`ApiService.retryRequest`, `ApiService.isRetryableError`).

JavaScript strings are modelled as Lean `String`s and operated on through
their character lists (`String.data`), so that every definition is
executable and kernel-reducible.  JS string `.length` counts UTF-16 code
units; the embedding counts characters, which agrees on all BMP text.
JS numbers that the routes validate as integers are modelled as `Int`;
the fractional sentiment scores are modelled as `ℚ` (the arithmetic the
source performs on them — sums and products of multiples of 0.1 and a
clamp — is exact in IEEE doubles' range here only up to representation
error; the spec and the claims state the same real-number formulas, so
`ℚ` is the faithful common reading).
-/

/-! ## Character-list string utilities (JS semantics) -/

/-- JS `String.prototype.toLowerCase`, restricted to the ASCII mapping the
analyzer's inputs use (`Char.toLower` lowers exactly `A`–`Z`). -/
def jsToLowerCase (s : String) : String :=
  ⟨s.data.map Char.toLower⟩

/-- Auxiliary for `jsIncludes`: does `l` start with `pat`? -/
def listStartsWith : List Char → List Char → Bool
  | _, [] => true
  | [], _ :: _ => false
  | a :: as, b :: bs => a == b && listStartsWith as bs

/-- Auxiliary for `jsIncludes`: does `pat` occur as a contiguous run in `l`? -/
def listContainsSeq (pat : List Char) : List Char → Bool
  | [] => pat.isEmpty
  | c :: rest => listStartsWith (c :: rest) pat || listContainsSeq pat rest

/-- JS `String.prototype.includes`: substring containment. -/
def jsIncludes (s sub : String) : Bool :=
  listContainsSeq sub.data s.data

/-- JS `String.prototype.split(sep)` with a single-character separator:
splits at every occurrence, keeping empty pieces (`"a  b".split(' ')`
gives three pieces). -/
def jsSplitChar (sep : Char) : List Char → List (List Char)
  | [] => [[]]
  | c :: rest =>
    if c == sep then [] :: jsSplitChar sep rest
    else
      match jsSplitChar sep rest with
      | [] => [[c]]
      | t :: ts => (c :: t) :: ts

/-- JS `String.prototype.trim`: strip leading and trailing whitespace. -/
def jsTrim (s : String) : String :=
  ⟨((s.data.dropWhile Char.isWhitespace).reverse.dropWhile Char.isWhitespace).reverse⟩

/-- JS ASCII word character, the `\w` class: letters, digits, underscore. -/
def isWordChar (c : Char) : Bool :=
  (('a' ≤ c && c ≤ 'z') || ('A' ≤ c && c ≤ 'Z') || ('0' ≤ c && c ≤ '9') || c == '_')

/-- JS `split(/\s+/)`: split at maximal whitespace runs, keeping the empty
piece a leading (or trailing) run produces. -/
def splitWhitespaceRuns (acc : List Char) : List Char → List (List Char)
  | [] => [acc.reverse]
  | c :: rest =>
    if c.isWhitespace then
      acc.reverse :: splitWhitespaceRuns [] (rest.dropWhile Char.isWhitespace)
    else
      splitWhitespaceRuns (c :: acc) rest
termination_by l => l.length
decreasing_by
  · simpa using Nat.lt_succ_of_le (List.dropWhile_sublist _).length_le
  · simp

/-- First-seen-order deduplication, the JS `[...new Set(words)]`. -/
def dedupFirst : List String → List String
  | [] => []
  | a :: rest => a :: dedupFirst (rest.filter (fun b => !(b == a)))
termination_by l => l.length
decreasing_by
  simpa using Nat.lt_succ_of_le (List.length_filter_le _ _)

/-! ## Heuristic text analyzer — `AIService` of `src/backend/src/services/aiService.js`

The OpenAI branch of `analyzeSentiment` is an external collaborator (absent
API key, network failure or parse failure all fall through); the embedded
analyzer is the rule-based `fallbackAnalysis` tier, which never fails. -/

/-- The fixed positive word list of `fallbackAnalysis`. -/
def positiveWords : List String :=
  ["good", "great", "excellent", "amazing", "love", "perfect", "recommend",
   "awesome", "fantastic", "wonderful"]

/-- The fixed negative word list of `fallbackAnalysis`. -/
def negativeWords : List String :=
  ["bad", "terrible", "awful", "hate", "worst", "horrible", "disappointing",
   "useless", "broken", "waste"]

/-- The stop-word list of `extractKeywords`. -/
def stopWords : List String :=
  ["this", "that", "with", "have", "will", "from", "they", "been", "were",
   "said", "each", "which", "their", "time", "would", "there", "could", "other"]

/-- Input of `fallbackAnalysis` (the fields it reads from a review). -/
structure AnalyzeInput where
  title : String
  content : String
  rating : Int
  productName : String
  deriving DecidableEq

/-- Result shape of the analyzer. -/
structure Analysis where
  sentiment : String
  score : ℚ
  confidence : ℚ
  summary : String
  keywords : List String
  isFake : Bool
  fakeConfidence : ℚ
  provider : String
  deriving DecidableEq

/-- `AIService.extractKeywords`: lower-case, drop non-word non-space
characters, split on whitespace runs, keep words longer than 3 characters
that are not stop words, deduplicate keeping first occurrences, take 5. -/
def extractKeywords (text : String) : List String :=
  let cleaned := (jsToLowerCase text).data.filter (fun c => isWordChar c || c.isWhitespace)
  let words := (splitWhitespaceRuns [] cleaned).map (fun l => (⟨l⟩ : String))
  let kept := (words.filter (fun w => w.length > 3)).filter (fun w => !(stopWords.contains w))
  (dedupFirst kept).take 5

/-- `sentiment.charAt(0).toUpperCase() + sentiment.slice(1)`. -/
def capitalizeFirst (s : String) : String :=
  match s.data with
  | [] => ""
  | c :: rest => ⟨Char.toUpper c :: rest⟩

/-- Number of words of the fixed list `ws` that occur (as substrings, via
`text.includes(word)`) in `text`: `ws.filter(word => text.includes(word)).length`. -/
def countListWords (ws : List String) (text : String) : Nat :=
  (ws.filter (fun w => jsIncludes text w)).length

/-- `AIService.fallbackAnalysis`, line for line.  The score is clamped with
`Math.max(-1, Math.min(1, score))` after the branch computes it. -/
def fallbackAnalysis (review : AnalyzeInput) : Analysis :=
  let text := jsToLowerCase (review.title ++ " " ++ review.content)
  let positiveCount := countListWords positiveWords text
  let negativeCount := countListWords negativeWords text
  let sentimentScore : String × ℚ :=
    if review.rating ≥ 4 ∨ positiveCount > negativeCount then
      ("positive", 3/10 + (review.rating - 3) * (2/10) + (positiveCount : ℚ) * (1/10))
    else if review.rating ≤ 2 ∨ negativeCount > positiveCount then
      ("negative", -(3/10) - (3 - review.rating) * (2/10) - (negativeCount : ℚ) * (1/10))
    else
      ("neutral", (review.rating - 3) * (1/10))
  { sentiment := sentimentScore.1
    score := max (-1) (min 1 sentimentScore.2)
    confidence := 6/10
    summary := capitalizeFirst sentimentScore.1 ++ " review about " ++ review.productName
      ++ " with " ++ toString review.rating ++ "/5 rating."
    keywords := extractKeywords text
    isFake := decide (review.content.length < 20)
      || decide ((jsSplitChar ' ' review.content.data).length < 10)
    fakeConfidence := if review.content.length < 20 then 8/10 else 2/10
    provider := "fallback" }

/-- The classification rule exactly as the claim states it, for comparison
with `fallbackAnalysis`: rule order rating/count tests, clamped scores on
the positive and negative branches, bare `(rating-3)*0.1` on the neutral
branch. -/
def claimClassification (review : AnalyzeInput) : String × ℚ :=
  let text := jsToLowerCase (review.title ++ " " ++ review.content)
  let positiveCount := countListWords positiveWords text
  let negativeCount := countListWords negativeWords text
  if review.rating ≥ 4 ∨ positiveCount > negativeCount then
    ("positive", max (-1) (min 1 (3/10 + (review.rating - 3) * (2/10) + (positiveCount : ℚ) * (1/10))))
  else if review.rating ≤ 2 ∨ negativeCount > positiveCount then
    ("negative", max (-1) (min 1 (-(3/10) - (3 - review.rating) * (2/10) - (negativeCount : ℚ) * (1/10))))
  else
    ("neutral", (review.rating - 3) * (1/10))

/-! ## Content hasher — `BlockchainService.generateHash`

`src/unnamed/part_002` (backend) and `src/src/services/blockchainService.ts`
(frontend) both compute
`"0x" + hex(sha256(JSON.stringify(data, Object.keys(data).sort())))`.
The input is a flat record of primitive fields, modelled as an association
list `List (String × Prim)`.  `JSON.stringify` with an array replacer
serializes exactly the listed keys, in the replacer array's order, so the
sorted key array yields the canonical lexicographically-ordered form.
SHA-256 (FIPS 180-4, what `crypto.createHash('sha256')` and
`crypto.subtle.digest('SHA-256')` compute) is embedded over byte lists with
`Nat` arithmetic mod `2^32`. -/

/-- UTF-8 encoding of one character (`TextEncoder` / node's default). -/
def utf8EncodeChar (c : Char) : List Nat :=
  let n := c.toNat
  if n < 0x80 then [n]
  else if n < 0x800 then [0xC0 + n / 64, 0x80 + n % 64]
  else if n < 0x10000 then [0xE0 + n / 4096, 0x80 + (n / 64) % 64, 0x80 + n % 64]
  else [0xF0 + n / 262144, 0x80 + (n / 4096) % 64, 0x80 + (n / 64) % 64, 0x80 + n % 64]

/-- UTF-8 bytes of a string. -/
def utf8Bytes (s : String) : List Nat :=
  (s.data.map utf8EncodeChar).flatten

/-- SHA-256 round constants. -/
def K256 : List Nat :=
  [1116352408, 1899447441, 3049323471, 3921009573, 961987163, 1508970993,
   2453635748, 2870763221, 3624381080, 310598401, 607225278, 1426881987,
   1925078388, 2162078206, 2614888103, 3248222580, 3835390401, 4022224774,
   264347078, 604807628, 770255983, 1249150122, 1555081692, 1996064986,
   2554220882, 2821834349, 2952996808, 3210313671, 3336571891, 3584528711,
   113926993, 338241895, 666307205, 773529912, 1294757372, 1396182291,
   1695183700, 1986661051, 2177026350, 2456956037, 2730485921, 2820302411,
   3259730800, 3345764771, 3516065817, 3600352804, 4094571909, 275423344,
   430227734, 506948616, 659060556, 883997877, 958139571, 1322822218,
   1537002063, 1747873779, 1955562222, 2024104815, 2227730452, 2361852424,
   2428436474, 2756734187, 3204031479, 3329325298]

/-- SHA-256 initial hash value. -/
def H256 : List Nat :=
  [1779033703, 3144134277, 1013904242, 2773480762,
   1359893119, 2600822924, 528734635, 1541459225]

/-- 32-bit rotate right. -/
def ror32 (x n : Nat) : Nat :=
  (x / 2 ^ n + x % 2 ^ n * 2 ^ (32 - n)) % 2 ^ 32

/-- SHA-256 `σ0`. -/
def smallSigma0 (x : Nat) : Nat := ror32 x 7 ^^^ ror32 x 18 ^^^ x / 2 ^ 3

/-- SHA-256 `σ1`. -/
def smallSigma1 (x : Nat) : Nat := ror32 x 17 ^^^ ror32 x 19 ^^^ x / 2 ^ 10

/-- SHA-256 `Σ0`. -/
def bigSigma0 (x : Nat) : Nat := ror32 x 2 ^^^ ror32 x 13 ^^^ ror32 x 22

/-- SHA-256 `Σ1`. -/
def bigSigma1 (x : Nat) : Nat := ror32 x 6 ^^^ ror32 x 11 ^^^ ror32 x 25

/-- SHA-256 `Ch`. -/
def sha256Ch (x y z : Nat) : Nat := (x &&& y) ^^^ ((x ^^^ 0xffffffff) &&& z)

/-- SHA-256 `Maj`. -/
def sha256Maj (x y z : Nat) : Nat := (x &&& y) ^^^ (x &&& z) ^^^ (y &&& z)

/-- SHA-256 padding: `0x80`, zeros to 56 mod 64, 8-byte big-endian bit length. -/
def sha256Pad (msg : List Nat) : List Nat :=
  let len := msg.length
  let zeros := (56 + 64 - (len + 1) % 64) % 64
  let bitLen := len * 8
  msg ++ 0x80 :: List.replicate zeros 0 ++
    [bitLen / 2 ^ 56 % 256, bitLen / 2 ^ 48 % 256, bitLen / 2 ^ 40 % 256, bitLen / 2 ^ 32 % 256,
     bitLen / 2 ^ 24 % 256, bitLen / 2 ^ 16 % 256, bitLen / 2 ^ 8 % 256, bitLen % 256]

/-- Split a byte list into 64-byte blocks. -/
def toBlocks (l : List Nat) : List (List Nat) :=
  if l.isEmpty then [] else l.take 64 :: toBlocks (l.drop 64)
termination_by l.length
decreasing_by
  rename_i hne
  simp only [List.isEmpty_iff] at hne
  have : 0 < l.length := List.length_pos.mpr hne
  simp [List.length_drop]
  omega

/-- The 16 big-endian 32-bit words of one block. -/
def wordsOfBlock (block : List Nat) : List Nat :=
  (List.range 16).map (fun i =>
    block.getD (4 * i) 0 * 2 ^ 24 + block.getD (4 * i + 1) 0 * 2 ^ 16 +
    block.getD (4 * i + 2) 0 * 2 ^ 8 + block.getD (4 * i + 3) 0)

/-- Extend the 16-word schedule to 64 words. -/
def extendSchedule (w16 : List Nat) : List Nat :=
  (List.range 48).foldl (fun w _ =>
    let n := w.length
    w ++ [(smallSigma1 (w.getD (n - 2) 0) + w.getD (n - 7) 0 +
           smallSigma0 (w.getD (n - 15) 0) + w.getD (n - 16) 0) % 2 ^ 32]) w16

/-- The eight SHA-256 working variables. -/
structure Sha256State where
  sa : Nat
  sb : Nat
  sc : Nat
  sd : Nat
  se : Nat
  sf : Nat
  sg : Nat
  sh : Nat

/-- One SHA-256 compression round for a `(constant, scheduled word)` pair. -/
def compressStep (st : Sha256State) (kw : Nat × Nat) : Sha256State :=
  let t1 := (st.sh + bigSigma1 st.se + sha256Ch st.se st.sf st.sg + kw.1 + kw.2) % 2 ^ 32
  let t2 := (bigSigma0 st.sa + sha256Maj st.sa st.sb st.sc) % 2 ^ 32
  { sa := (t1 + t2) % 2 ^ 32, sb := st.sa, sc := st.sb, sd := st.sc,
    se := (st.sd + t1) % 2 ^ 32, sf := st.se, sg := st.sf, sh := st.sg }

/-- Process one 64-byte block into the running hash words. -/
def processBlock (hs : List Nat) (block : List Nat) : List Nat :=
  let ws := extendSchedule (wordsOfBlock block)
  let st0 : Sha256State :=
    { sa := hs.getD 0 0, sb := hs.getD 1 0, sc := hs.getD 2 0, sd := hs.getD 3 0,
      se := hs.getD 4 0, sf := hs.getD 5 0, sg := hs.getD 6 0, sh := hs.getD 7 0 }
  let st := (K256.zip ws).foldl compressStep st0
  [(hs.getD 0 0 + st.sa) % 2 ^ 32, (hs.getD 1 0 + st.sb) % 2 ^ 32,
   (hs.getD 2 0 + st.sc) % 2 ^ 32, (hs.getD 3 0 + st.sd) % 2 ^ 32,
   (hs.getD 4 0 + st.se) % 2 ^ 32, (hs.getD 5 0 + st.sf) % 2 ^ 32,
   (hs.getD 6 0 + st.sg) % 2 ^ 32, (hs.getD 7 0 + st.sh) % 2 ^ 32]

/-- Big-endian bytes of one 32-bit word. -/
def word32Bytes (w : Nat) : List Nat :=
  [w / 2 ^ 24 % 256, w / 2 ^ 16 % 256, w / 2 ^ 8 % 256, w % 256]

/-- SHA-256 digest (32 bytes) of a byte list. -/
def sha256 (msg : List Nat) : List Nat :=
  ((toBlocks (sha256Pad msg)).foldl processBlock H256).map word32Bytes |>.flatten

/-- The sixteen lowercase hex digit characters, in value order. -/
def hexDigits : List Char :=
  "0123456789abcdef".data

/-- The hex digit character for a value below 16. -/
def hexDigitChar (n : Nat) : Char := hexDigits.getD n '0'

/-- JS `n.toString(16)` for a natural number: lowercase hex digits. -/
def natToHexDigits (n : Nat) : List Char :=
  if n < 16 then [hexDigitChar n]
  else natToHexDigits (n / 16) ++ [hexDigitChar (n % 16)]
termination_by n
decreasing_by
  exact Nat.div_lt_self (by omega) (by omega)

/-- JS `.padStart(2, '0')`. -/
def jsPadStart2 (l : List Char) : List Char :=
  List.replicate (2 - l.length) '0' ++ l

/-- One byte as two lowercase hex characters: `b.toString(16).padStart(2, '0')`. -/
def byteToHex (b : Nat) : List Char :=
  jsPadStart2 (natToHexDigits b)

/-- `hashArray.map(b => b.toString(16).padStart(2, '0')).join('')`. -/
def hexOfBytes (bytes : List Nat) : String :=
  ⟨(bytes.map byteToHex).flatten⟩

/-- Primitive JSON-serializable values, the field values of the flat records
`generateHash` receives. -/
inductive Prim where
  | str (s : String)
  | int (n : Int)
  | bool (b : Bool)
  deriving DecidableEq

/-- JSON string escaping as `JSON.stringify` performs it. -/
def escapeJsonChar (c : Char) : List Char :=
  if c == '"' then ['\\', '"']
  else if c == '\\' then ['\\', '\\']
  else if c == '\x08' then ['\\', 'b']
  else if c == '\x09' then ['\\', 't']
  else if c == '\x0a' then ['\\', 'n']
  else if c == '\x0c' then ['\\', 'f']
  else if c == '\x0d' then ['\\', 'r']
  else if c.toNat < 0x20 then
    '\\' :: 'u' :: '0' :: '0' :: [hexDigitChar (c.toNat / 16), hexDigitChar (c.toNat % 16)]
  else [c]

/-- A JSON string literal: quotes around the escaped characters. -/
def jsonQuote (s : String) : String :=
  ⟨'"' :: (s.data.map escapeJsonChar).flatten ++ ['"']⟩

/-- JSON serialization of one primitive value. -/
def serializePrim : Prim → String
  | .str s => jsonQuote s
  | .int n => toString n
  | .bool b => if b then "true" else "false"

/-- Lexicographic (code-unit) comparison of character lists: the order JS
`Array.prototype.sort()` applies to strings with its default comparator. -/
def charsLe : List Char → List Char → Bool
  | [], _ => true
  | _ :: _, [] => false
  | a :: as, b :: bs => if a < b then true else if b < a then false else charsLe as bs

/-- Lexicographic string comparison. -/
def strLe (a b : String) : Bool := charsLe a.data b.data

instance decRelStrLe : DecidableRel (fun a b : String => strLe a b = true) :=
  fun _ _ => Bool.decEq _ _

instance decRelEntryLe : DecidableRel (fun p q : String × Prim => strLe p.1 q.1 = true) :=
  fun _ _ => Bool.decEq _ _

/-- `Object.keys(data)`: the record's keys in insertion order. -/
def objectKeys (data : List (String × Prim)) : List String := data.map Prod.fst

/-- `Object.keys(data).sort()`. -/
def jsSortedKeys (data : List (String × Prim)) : List String :=
  (objectKeys data).insertionSort (fun a b => strLe a b = true)

/-- Property lookup on the record. -/
def lookupKey (data : List (String × Prim)) (k : String) : Option Prim :=
  (data.find? (fun p => p.1 == k)).map Prod.snd

/-- `JSON.stringify(data, Object.keys(data).sort())`: the replacer array both
selects and orders the serialized properties, so each key of the sorted key
array contributes `"key":value` in that order. -/
def jsStringifySortedKeys (data : List (String × Prim)) : String :=
  "\x7b" ++ String.intercalate ","
    ((jsSortedKeys data).filterMap
      (fun k => (lookupKey data k).map (fun v => jsonQuote k ++ ":" ++ serializePrim v)))
    ++ "\x7d"

/-- `BlockchainService.generateHash` on a serializable flat record (the
`catch` branch — the `Math.random()` fallback digest — is unreachable for
such records). -/
def generateHash (data : List (String × Prim)) : String :=
  "0x" ++ hexOfBytes (sha256 (utf8Bytes (jsStringifySortedKeys data)))

/-- The canonical JSON serialization as the spec words it, written
independently for comparison: the record's entries in lexicographic key
order, each serialized as `"key":value`. -/
def canonicalJsonSpec (data : List (String × Prim)) : String :=
  "\x7b" ++ String.intercalate ","
    ((data.insertionSort (fun p q : String × Prim => strLe p.1 q.1 = true)).map
      (fun p => jsonQuote p.1 ++ ":" ++ serializePrim p.2))
    ++ "\x7d"

/-! ## Review record store — the mongoose models and
`src/backend/src/controllers/reviewController.js`

The `Review` fields and defaults follow the `reviewSchema` of
`src/backend/src/routes/analyticsRoutes.js`; `User` keeps the fields the
controllers touch (`reputation`, `reviewCount`, `helpfulVotes`).  Dates are
modelled as the opaque values the hash and the record carry: `createdAt` as
its ISO string (what `review.createdAt.toISOString()` feeds the hasher),
`moderatedAt` as an abstract instant. -/

/-- Review moderation status. -/
inductive Status where
  | pending
  | approved
  | rejected
  deriving DecidableEq

/-- The status as the stored string the query filters compare against. -/
def Status.toStr : Status → String
  | .pending => "pending"
  | .approved => "approved"
  | .rejected => "rejected"

/-- A stored review document (`reviewSchema`). -/
structure Review where
  id : String
  user : String
  productName : String
  category : String
  title : String
  content : String
  rating : Int
  status : Status
  sentiment : String
  sentimentScore : ℚ
  summary : String
  keywords : List String
  isFake : Bool
  fakeConfidence : ℚ
  aiProvider : String
  isVerified : Bool
  blockchainHash : String
  ipfsHash : String
  blockchainVerified : Bool
  helpful : Int
  helpfulUsers : List String
  reportCount : Int
  reportedBy : List (String × String)
  views : Int
  moderatedBy : Option String
  moderatedAt : Option Nat
  moderationNotes : String
  createdAt : String
  deriving DecidableEq

/-- A stored user document (the fields the review controllers touch). -/
structure User where
  id : String
  role : String
  reputation : Int
  reviewCount : Int
  helpfulVotes : Int
  deriving DecidableEq

/-- The authenticated requester (`req.user`), absent on optional-auth routes. -/
structure AuthUser where
  id : String
  role : String
  deriving DecidableEq

/-- `req.user?.role === 'admin'`. -/
def isAdmin (reqUser : Option AuthUser) : Bool :=
  match reqUser with
  | some u => u.role == "admin"
  | none => false

/-- The document store both controllers read and write. -/
structure Store where
  reviews : List Review
  users : List User
  deriving DecidableEq

/-- `Review.findById`. -/
def findReview (s : Store) (rid : String) : Option Review :=
  s.reviews.find? (fun r => r.id == rid)

/-- `findByIdAndUpdate` / mutate-and-save on the review with the given id. -/
def updateReviewById (s : Store) (rid : String) (f : Review → Review) : Store :=
  { s with reviews := s.reviews.map (fun r => if r.id == rid then f r else r) }

/-- `User.findById`. -/
def findUser (s : Store) (uid : String) : Option User :=
  s.users.find? (fun u => u.id == uid)

/-- `User.findByIdAndUpdate` with an update function (`$inc` updates). -/
def updateUserById (s : Store) (uid : String) (f : User → User) : Store :=
  { s with users := s.users.map (fun u => if u.id == uid then f u else u) }

/-- Body of `POST /api/reviews`. -/
structure ReviewInput where
  productName : String
  category : String
  title : String
  content : String
  rating : Int
  qrCode : Option String
  deriving DecidableEq

/-- The fixed category enumeration of `reviewSchema` and
`createReviewValidation`. -/
def categories : List String :=
  ["Technology", "Automotive", "Food & Dining", "Healthcare", "Education",
   "Entertainment", "Travel", "Finance", "Fashion", "Home & Garden",
   "Sports & Fitness", "Books & Media", "Other"]

/-- `createReviewValidation` of the review routes: lengths are checked after
the `trim()` sanitizer, the rating with `isInt({min: 1, max: 5})`. -/
def validReviewInput (inp : ReviewInput) : Bool :=
  (1 ≤ (jsTrim inp.productName).length && (jsTrim inp.productName).length ≤ 200) &&
  categories.contains inp.category &&
  (1 ≤ (jsTrim inp.title).length && (jsTrim inp.title).length ≤ 200) &&
  (10 ≤ (jsTrim inp.content).length && (jsTrim inp.content).length ≤ 2000) &&
  (1 ≤ inp.rating && inp.rating ≤ 5)

/-- `Review.create(reviewData)` with the schema defaults: status `pending`,
neutral sentiment, empty `blockchainHash`, zeroed counters. -/
def newReview (freshId uid : String) (inp : ReviewInput) (createdAt : String) : Review :=
  { id := freshId
    user := uid
    productName := jsTrim inp.productName
    category := inp.category
    title := jsTrim inp.title
    content := jsTrim inp.content
    rating := inp.rating
    status := .pending
    sentiment := "neutral"
    sentimentScore := 0
    summary := ""
    keywords := []
    isFake := false
    fakeConfidence := 0
    aiProvider := "fallback"
    isVerified := false
    blockchainHash := ""
    ipfsHash := ""
    blockchainVerified := false
    helpful := 0
    helpfulUsers := []
    reportCount := 0
    reportedBy := []
    views := 0
    moderatedBy := none
    moderatedAt := none
    moderationNotes := ""
    createdAt := createdAt }

/-- Outcome of `createReview` (HTTP 400 for both failure shapes). -/
inductive CreateReviewResult where
  | validationFailed
  | conflict (message : String)
  | created (review : Review)
  deriving DecidableEq

/-- `createReview`: validation, the one-review-per-(author, product) check
(`Review.findOne({user, productName})` answered before any write), then
`Review.create`, a fire-and-forget `processReviewWithAI` (not awaited — the
embedding applies enrichment as a separate later step) and the author's
`reviewCount` increment.  The `201` response carries the review as created,
with its schema defaults. -/
def createReview (s : Store) (uid : String) (inp : ReviewInput) (freshId createdAt : String) :
    CreateReviewResult × Store :=
  if !(validReviewInput inp) then (.validationFailed, s)
  else
    match s.reviews.find? (fun r => r.user == uid && r.productName == jsTrim inp.productName) with
    | some _ => (.conflict "You have already reviewed this product", s)
    | none =>
      let review := newReview freshId uid inp createdAt
      let s1 : Store := { s with reviews := s.reviews ++ [review] }
      let s2 := updateUserById s1 uid (fun u => { u with reviewCount := u.reviewCount + 1 })
      (.created review, s2)

/-- The flat record `processReviewWithAI` hands `generateHash`: the review's
title, content, rating, ISO creation timestamp, and author id (serialized
under the source's key `userId`). -/
def hashRecordOf (r : Review) : List (String × Prim) :=
  [("title", .str r.title), ("content", .str r.content), ("rating", .int r.rating),
   ("timestamp", .str r.createdAt), ("userId", .str r.user)]

/-- The `findByIdAndUpdate` payload of `processReviewWithAI`: the analysis
and hash results computed from the fetched `review`, written onto the
stored document `r`. -/
def enrichFields (review : Review) (r : Review) : Review :=
  let ai := fallbackAnalysis
    { title := review.title, content := review.content,
      rating := review.rating, productName := review.productName }
  { r with
    sentiment := ai.sentiment
    sentimentScore := ai.score
    summary := ai.summary
    keywords := ai.keywords
    isFake := ai.isFake
    fakeConfidence := ai.fakeConfidence
    aiProvider := ai.provider
    blockchainHash := generateHash (hashRecordOf review)
    blockchainVerified := true }

/-- `processReviewWithAI`: fetch the review, analyze (the heuristic tier —
the remote tier is an external collaborator), hash, and write the
enrichment fields back.  A missing review leaves the store unchanged. -/
def processReviewWithAI (s : Store) (rid : String) : Store :=
  match findReview s rid with
  | none => s
  | some review => updateReviewById s rid (enrichFields review)

/-- Outcome of `GET /api/reviews/:id`. -/
inductive GetReviewResult where
  | notFound (message : String)
  | ok (review : Review)
  deriving DecidableEq

/-- `getReview`: a missing review and a non-approved review seen by a
non-admin produce the same 404; a successful fetch increments the view
counter and returns the incremented document. -/
def getReview (s : Store) (reqUser : Option AuthUser) (rid : String) :
    GetReviewResult × Store :=
  match findReview s rid with
  | none => (.notFound "Review not found", s)
  | some review =>
    if review.status != Status.approved && !(isAdmin reqUser) then
      (.notFound "Review not found", s)
    else
      (.ok { review with views := review.views + 1 },
       updateReviewById s rid (fun r => { r with views := r.views + 1 }))

/-- Outcome of `PATCH /api/reviews/:id/status`. -/
inductive StatusUpdateResult where
  | validationFailed
  | notFound (message : String)
  | ok (review : Review)
  deriving DecidableEq

/-- `updateReviewStatus`: after `statusValidation` (`approved` or `rejected`
only), set the status and moderation fields, then unconditionally apply the
reputation change — `status === 'approved' ? 10 : -5` — to the author,
whether or not the status actually changed. -/
def updateReviewStatus (s : Store) (adminId rid : String) (status : Status)
    (moderationNotes : Option String) (now : Nat) : StatusUpdateResult × Store :=
  if !(status == Status.approved || status == Status.rejected) then
    (.validationFailed, s)
  else
    match findReview s rid with
    | none => (.notFound "Review not found", s)
    | some review =>
      let moderate : Review → Review := fun r =>
        { r with
          status := status
          moderatedBy := some adminId
          moderatedAt := some now
          moderationNotes := match moderationNotes with
            | some notes => notes
            | none => r.moderationNotes }
      let s1 := updateReviewById s rid moderate
      let reputationChange : Int := if status == Status.approved then 10 else -5
      let s2 := updateUserById s1 review.user
        (fun u => { u with reputation := u.reputation + reputationChange })
      (.ok (moderate review), s2)

/-- `reviewSchema.methods.markHelpful`: guarded push and increment. -/
def Review.markHelpfulMethod (r : Review) (uid : String) : Review :=
  if r.helpfulUsers.contains uid then r
  else { r with helpfulUsers := r.helpfulUsers ++ [uid], helpful := r.helpful + 1 }

/-- Outcome of `POST /api/reviews/:id/helpful`. -/
inductive HelpfulResult where
  | notFound (message : String)
  | conflict (message : String)
  | ok (helpful : Int)
  deriving DecidableEq

/-- `markHelpful`: 404 on a missing review, 400 on a repeated vote from the
same user, otherwise the schema method's push-and-increment plus the
author's reputation bonus; the response carries the incremented
`review.helpful`. -/
def markHelpful (s : Store) (uid rid : String) : HelpfulResult × Store :=
  match findReview s rid with
  | none => (.notFound "Review not found", s)
  | some review =>
    if review.helpfulUsers.contains uid then
      (.conflict "You have already marked this review as helpful", s)
    else
      let s1 := updateReviewById s rid (fun r => r.markHelpfulMethod uid)
      let s2 := updateUserById s1 review.user
        (fun u => { u with reputation := u.reputation + 2, helpfulVotes := u.helpfulVotes + 1 })
      (.ok (review.markHelpfulMethod uid).helpful, s2)

/-- Query parameters of `GET /api/reviews` (absent = not supplied; the
`status` parameter defaults to `'approved'` at destructuring). -/
structure ReviewsQueryParams where
  page : Nat
  limit : Nat
  status : Option String
  category : Option String
  sentiment : Option String
  rating : Option Int
  search : Option String
  userId : Option String
  deriving DecidableEq

/-- The mongo query object `getReviews` builds. -/
structure ReviewQueryFilter where
  status : Option String
  category : Option String
  sentiment : Option String
  rating : Option Int
  userId : Option String
  search : Option String
  deriving DecidableEq

/-- The query-building prefix of `getReviews`: a non-admin caller's status
filter is forced to `'approved'`; an admin's requested status is used when
truthy (the destructuring default makes an absent parameter `'approved'`);
the remaining filters are copied when present. -/
def buildReviewQuery (reqUser : Option AuthUser) (p : ReviewsQueryParams) : ReviewQueryFilter :=
  let statusParam := match p.status with
    | some st => st
    | none => "approved"
  { status := if !(isAdmin reqUser) then some "approved"
      else if statusParam != "" then some statusParam else none
    category := p.category
    sentiment := p.sentiment
    rating := p.rating
    userId := p.userId
    search := p.search }

/-- Whether a stored review matches the query object (`Review.find(query)`).
Mongo text search (`$text`) relevance is an external collaborator, passed in
as the `textMatch` predicate. -/
def matchesQuery (textMatch : String → Review → Bool) (q : ReviewQueryFilter) (r : Review) : Bool :=
  (match q.status with | some st => r.status.toStr == st | none => true) &&
  (match q.category with | some c => r.category == c | none => true) &&
  (match q.sentiment with | some sm => r.sentiment == sm | none => true) &&
  (match q.rating with | some rt => r.rating == rt | none => true) &&
  (match q.userId with | some uid => r.user == uid | none => true) &&
  (match q.search with | some txt => textMatch txt r | none => true)

/-- `getReviews`' result page: filter, sort (the mongo sort order is an
external collaborator, passed in as the decidable relation `sortRel`),
then `.skip((page-1)*limit).limit(limit)`. -/
def getReviewsPage (s : Store) (reqUser : Option AuthUser) (p : ReviewsQueryParams)
    (sortRel : Review → Review → Prop) [DecidableRel sortRel]
    (textMatch : String → Review → Bool) : List Review :=
  let q := buildReviewQuery reqUser p
  let sorted := (s.reviews.filter (matchesQuery textMatch q)).insertionSort sortRel
  (sorted.drop ((p.page - 1) * p.limit)).take p.limit

/-- A trivial sort relation, usable as a concrete `sortRel`. -/
def trivialSortRel : Review → Review → Prop := fun _ _ => True

instance decTrivialSortRel : DecidableRel trivialSortRel :=
  fun _ _ => isTrue trivial

/-! ## Client retry logic — `ApiService` of `src/src/services/api.ts`

`retryRequest` makes the initial attempt and, on a retryable thrown error,
waits `1000 * (MAX_RETRIES - retries + 1)` ms and recurses with one retry
fewer.  The request function is modelled as a map from the attempt index to
that attempt's outcome; the embedding returns the final outcome together
with the list of delays slept, in order. -/

/-- A thrown request error as `isRetryableError` inspects it: whether it is
a `TypeError` (a network-level failure), and its `status` property when one
exists (absent on plain exceptions; comparisons against `undefined` are
false in JS, matched by the `none` branch). -/
structure JsError where
  isTypeError : Bool
  status : Option Int
  deriving DecidableEq

/-- `ApiService.isRetryableError`: network errors, 5xx, and 429. -/
def isRetryableError (e : JsError) : Bool :=
  e.isTypeError ||
    (match e.status with
     | some st => (decide (500 ≤ st) && decide (st < 600)) || st == 429
     | none => false)

/-- `MAX_RETRIES` of `src/src/services/api.ts`. -/
def MAX_RETRIES : Nat := 3

/-- `ApiService.retryRequest`: try `fn`; on a thrown error, if retries
remain and the error is retryable, sleep `1000 * (MAX_RETRIES - retries + 1)`
ms and recurse, else rethrow.  Returns the outcome and the delays slept. -/
def retryRequest {α : Type} (fn : Nat → Except JsError α) (attempt : Nat) :
    Nat → Except JsError α × List Nat
  | 0 =>
    match fn attempt with
    | .ok v => (.ok v, [])
    | .error e => (.error e, [])
  | retries + 1 =>
    match fn attempt with
    | .ok v => (.ok v, [])
    | .error e =>
      if isRetryableError e then
        let rest := retryRequest fn (attempt + 1) retries
        (rest.1, 1000 * (MAX_RETRIES - (retries + 1) + 1) :: rest.2)
      else (.error e, [])

/-- Number of invocations of the request function a `retryRequest` run
performs: one initial attempt plus one per delay slept. -/
def attemptsMade {α : Type} (run : Except JsError α × List Nat) : Nat :=
  run.2.length + 1

/-- A request function whose every attempt throws a network-level error. -/
def allNetworkFailures : Nat → Except JsError Unit :=
  fun _ => .error { isTypeError := true, status := none }

/-! ## Concrete fixtures for the witness theorems -/

/-- A concrete already-approved review by author `u1`. -/
def reviewApproved : Review :=
  { newReview "r1" "u1"
      { productName := "Phone X", category := "Technology", title := "Solid phone",
        content := "Works well and lasts long", rating := 4, qrCode := none }
      "2024-01-01T00:00:00.000Z" with
    status := Status.approved }

/-- A concrete pending review by author `u2`. -/
def reviewPending : Review :=
  newReview "r2" "u2"
    { productName := "Blender B", category := "Home & Garden", title := "Loud but strong",
      content := "Crushes ice without trouble", rating := 3, qrCode := none }
    "2024-02-01T00:00:00.000Z"

/-- The author of `reviewApproved`, at the starting reputation 100. -/
def userOne : User :=
  { id := "u1", role := "user", reputation := 100, reviewCount := 1, helpfulVotes := 0 }

/-- A second user. -/
def userTwo : User :=
  { id := "u2", role := "user", reputation := 100, reviewCount := 1, helpfulVotes := 0 }

/-- A concrete two-review store. -/
def storeTwo : Store :=
  { reviews := [reviewApproved, reviewPending], users := [userOne, userTwo] }

/-- An empty store holding only the two users. -/
def storeUsersOnly : Store :=
  { reviews := [], users := [userOne, userTwo] }

/-- A concrete valid submission body. -/
def inputW : ReviewInput :=
  { productName := "Laptop L", category := "Technology", title := "Quick and quiet",
    content := "Boots fast and stays cool under load", rating := 5, qrCode := none }

/-- Concrete list parameters: first page, defaults, category filter. -/
def paramsW : ReviewsQueryParams :=
  { page := 1, limit := 10, status := some "pending", category := some "Technology",
    sentiment := none, rating := none, search := none, userId := none }

/-- A concrete second submission by `u1` for the product `u1` already
reviewed in `storeTwo`. -/
def inputDup : ReviewInput :=
  { productName := "Phone X", category := "Technology", title := "Another take",
    content := "Trying to add a second review", rating := 4, qrCode := none }

/-! ## Helper lemmas -/

/-- `find?` over a keyed update map: updating every element whose key
matches commutes with looking the key up, when the update preserves keys. -/
theorem find?_map_keyed {α : Type} (key : α → String) (f : α → α) (k : String)
    (hid : ∀ x, key (f x) = key x) :
    ∀ l : List α,
      (l.map (fun x => if key x == k then f x else x)).find? (fun x => key x == k)
        = (l.find? (fun x => key x == k)).map f := by
  intro l
  induction l with
  | nil => rfl
  | cons x rest ih =>
    simp only [List.map_cons]
    by_cases hx : (key x == k) = true
    · rw [if_pos hx]
      have hfx : (key (f x) == k) = true := by rw [hid]; exact hx
      rw [@List.find?_cons_of_pos _ (fun x => key x == k) (f x) _ hfx,
        @List.find?_cons_of_pos _ (fun x => key x == k) x _ hx]
      rfl
    · rw [if_neg hx]
      rw [List.find?_cons_of_neg _ (by simpa using hx), List.find?_cons_of_neg _ (by simpa using hx)]
      exact ih

/-- `findReview` after `updateReviewById` at the same id, for key-preserving
updates. -/
theorem findReview_updateReviewById (s : Store) (rid : String) (f : Review → Review)
    (hid : ∀ r, (f r).id = r.id) :
    findReview (updateReviewById s rid f) rid = (findReview s rid).map f := by
  unfold findReview updateReviewById
  exact find?_map_keyed Review.id f rid hid s.reviews

/-- `findUser` after `updateUserById` at the same id, for key-preserving
updates. -/
theorem findUser_updateUserById (s : Store) (uid : String) (f : User → User)
    (hid : ∀ u, (f u).id = u.id) :
    findUser (updateUserById s uid f) uid = (findUser s uid).map f := by
  unfold findUser updateUserById
  exact find?_map_keyed User.id f uid hid s.users

/-- User updates do not touch the review collection. -/
theorem findReview_updateUserById (s : Store) (uid : String) (f : User → User) (rid : String) :
    findReview (updateUserById s uid f) rid = findReview s rid := rfl

/-- The schema method preserves the review id. -/
theorem markHelpfulMethod_id (r : Review) (uid : String) :
    (r.markHelpfulMethod uid).id = r.id := by
  unfold Review.markHelpfulMethod
  split <;> rfl

/-! ## C1 — reputation on `updateReviewStatus` is applied per call, not per
transition -/

/-- C1: the code applies the reputation delta on every `setStatus` call.  In
`storeTwo` the review `r1` is already `approved` and its author `u1` stands
at reputation 100; re-approving it (no status transition) still raises the
reputation to 110, where the claim mandates no change without a transition. -/
theorem c1_reputation_without_transition :
    (findReview storeTwo "r1").map Review.status = some Status.approved ∧
    (findUser storeTwo "u1").map User.reputation = some 100 ∧
    (findUser (updateReviewStatus storeTwo "admin1" "r1" Status.approved none 5).2 "u1").map
      User.reputation = some 110 := by
  refine ⟨rfl, rfl, ?_⟩
  rfl

/-! ## C5 — duplicate review submission conflicts and creates nothing -/

/-- C5: when the author already has a review for the product, a second
submission answers the ConflictError message over HTTP 400 and leaves the
store — in particular the review collection — exactly as it was. -/
theorem c5_duplicate_review_conflict (s : Store) (uid : String) (inp : ReviewInput)
    (freshId createdAt : String) (hvalid : validReviewInput inp = true)
    (hdup : (s.reviews.find?
      (fun r => r.user == uid && r.productName == jsTrim inp.productName)).isSome = true) :
    (createReview s uid inp freshId createdAt).1
      = CreateReviewResult.conflict "You have already reviewed this product" ∧
    (createReview s uid inp freshId createdAt).2 = s := by
  unfold createReview
  rcases h : s.reviews.find?
      (fun r => r.user == uid && r.productName == jsTrim inp.productName) with _ | r
  · rw [h] at hdup
    simp at hdup
  · rw [hvalid]
    simp [h]

/-- C5 witness: `u1` already reviewed "Phone X" in `storeTwo`; the second
submission conflicts and the store is unchanged. -/
theorem c5_duplicate_review_conflict_witness :
    (createReview storeTwo "u1" inputDup "r9" "2024-03-01T00:00:00.000Z").1
      = CreateReviewResult.conflict "You have already reviewed this product" ∧
    (createReview storeTwo "u1" inputDup "r9" "2024-03-01T00:00:00.000Z").2 = storeTwo :=
  c5_duplicate_review_conflict storeTwo "u1" inputDup "r9" "2024-03-01T00:00:00.000Z"
    (by decide) (by decide)


/-! ## C6 — `markHelpful` is idempotent per user with a duplicate error -/

/-- The conflict branch of `markHelpful`: a repeated vote answers the
ConflictError and returns the store untouched. -/
theorem markHelpful_conflict_of_contains (s : Store) (uid rid : String) (r : Review)
    (hr : findReview s rid = some r) (hmem : r.helpfulUsers.contains uid = true) :
    markHelpful s uid rid
      = (HelpfulResult.conflict "You have already marked this review as helpful", s) := by
  unfold markHelpful
  rw [hr]
  dsimp only
  rw [if_pos hmem]

/-- C6: for a review `r` the user has not yet marked, the first `markHelpful`
call answers the incremented count, pushes the user and increments `helpful`
by exactly 1; the second call for the same pair answers the ConflictError
message over HTTP 400 and leaves the store unchanged, so two calls increment
`helpful` exactly once total. -/
theorem c6_markHelpful_idempotent (s : Store) (uid rid : String) (r : Review)
    (hr : findReview s rid = some r) (hnew : r.helpfulUsers.contains uid = false) :
    (markHelpful s uid rid).1 = HelpfulResult.ok (r.helpful + 1) ∧
    (findReview (markHelpful s uid rid).2 rid).map Review.helpful = some (r.helpful + 1) ∧
    (findReview (markHelpful s uid rid).2 rid).map Review.helpfulUsers
      = some (r.helpfulUsers ++ [uid]) ∧
    (markHelpful (markHelpful s uid rid).2 uid rid).1
      = HelpfulResult.conflict "You have already marked this review as helpful" ∧
    (markHelpful (markHelpful s uid rid).2 uid rid).2 = (markHelpful s uid rid).2 := by
  have hmeth : r.markHelpfulMethod uid
      = { r with helpfulUsers := r.helpfulUsers ++ [uid], helpful := r.helpful + 1 } := by
    unfold Review.markHelpfulMethod
    rw [if_neg (by rw [hnew]; simp)]
  have hres : markHelpful s uid rid
      = (HelpfulResult.ok (r.markHelpfulMethod uid).helpful,
         updateUserById (updateReviewById s rid (fun x => x.markHelpfulMethod uid)) r.user
           (fun u => { u with reputation := u.reputation + 2, helpfulVotes := u.helpfulVotes + 1 })) := by
    unfold markHelpful
    rw [hr]
    dsimp only
    rw [if_neg (by rw [hnew]; simp)]
  have hfind2 : findReview (markHelpful s uid rid).2 rid = some (r.markHelpfulMethod uid) := by
    rw [hres]
    rw [findReview_updateUserById,
      findReview_updateReviewById s rid (fun x => x.markHelpfulMethod uid)
        (fun x => markHelpfulMethod_id x uid), hr]
    rfl
  have hcont : (r.markHelpfulMethod uid).helpfulUsers.contains uid = true := by
    rw [hmeth]
    simp
  have hconf := markHelpful_conflict_of_contains (markHelpful s uid rid).2 uid rid
    (r.markHelpfulMethod uid) hfind2 hcont
  refine ⟨?_, ?_, ?_, ?_, ?_⟩
  · rw [hres, hmeth]
  · rw [hfind2, hmeth]
    rfl
  · rw [hfind2, hmeth]
    rfl
  · rw [hconf]
  · rw [hconf]

/-- C6 witness: `u2` marks `r1` helpful in `storeTwo`; the first call
answers the incremented count. -/
theorem c6_markHelpful_idempotent_witness :
    (markHelpful storeTwo "u2" "r1").1 = HelpfulResult.ok (reviewApproved.helpful + 1) :=
  (c6_markHelpful_idempotent storeTwo "u2" "r1" reviewApproved rfl rfl).1

/-! ## C10 — hidden reviews answer the absent-review 404 without counting a
view -/

/-- C10: when the review exists but is not `approved` and the caller is not
an admin, `GET /api/reviews/:id` answers exactly the response an absent id
gets — the same 404 message with the store untouched, so the view counter
does not move; on a permitted fetch the view counter increments by exactly
one and the incremented document is returned. -/
theorem c10_getReview_hidden_and_views (s : Store) (reqUser : Option AuthUser) (rid : String)
    (r : Review) (hr : findReview s rid = some r) :
    (r.status ≠ Status.approved → isAdmin reqUser = false →
      getReview s reqUser rid = (GetReviewResult.notFound "Review not found", s) ∧
      (∀ rid2, findReview s rid2 = none →
        getReview s reqUser rid2 = (GetReviewResult.notFound "Review not found", s))) ∧
    ((r.status = Status.approved ∨ isAdmin reqUser = true) →
      (getReview s reqUser rid).1 = GetReviewResult.ok { r with views := r.views + 1 } ∧
      (findReview (getReview s reqUser rid).2 rid).map Review.views = some (r.views + 1)) := by
  constructor
  · intro hst hadmin
    constructor
    · unfold getReview
      rw [hr]
      dsimp only
      rw [if_pos (by simp [hadmin, bne_iff_ne, hst])]
    · intro rid2 h2
      unfold getReview
      rw [h2]
  · intro hok
    have hcond : ¬((r.status != Status.approved && !(isAdmin reqUser)) = true) := by
      rcases hok with h | h
      · rw [h]
        simp
      · rw [h]
        simp
    have hgr : getReview s reqUser rid
        = (GetReviewResult.ok { r with views := r.views + 1 },
           updateReviewById s rid (fun x => { x with views := x.views + 1 })) := by
      unfold getReview
      rw [hr]
      dsimp only
      rw [if_neg hcond]
    constructor
    · rw [hgr]
    · rw [hgr]
      rw [findReview_updateReviewById s rid (fun x => { x with views := x.views + 1 })
        (fun x => rfl), hr]
      rfl

/-- C10 witness: `r2` is pending, so an unauthenticated fetch answers the
absent-review 404 and the store — hence the view counter — is unchanged. -/
theorem c10_getReview_hidden_witness :
    getReview storeTwo none "r2" = (GetReviewResult.notFound "Review not found", storeTwo) :=
  ((c10_getReview_hidden_and_views storeTwo none "r2" reviewPending rfl).1
    (by decide) rfl).1

/-! ## C2 — creation answers pending with an empty hash; enrichment stores
the content hash of the review's fields -/

/-- C2: a valid, non-duplicate submission is answered immediately (without
waiting for enrichment) with the created record, whose status is `pending`
and whose `blockchainHash` is empty; once the asynchronous
`processReviewWithAI` step completes, the stored `blockchainHash` is exactly
`generateHash` of the flat record of that review's title, content, rating,
creation timestamp and author id (the record `hashRecordOf` builds, with
the author id under the source's `userId` key). -/
theorem c2_create_pending_then_hash (s : Store) (uid : String) (inp : ReviewInput)
    (freshId createdAt : String)
    (hvalid : validReviewInput inp = true)
    (hnone : s.reviews.find?
      (fun r => r.user == uid && r.productName == jsTrim inp.productName) = none)
    (hfresh : ∀ r ∈ s.reviews, (r.id == freshId) = false) :
    (createReview s uid inp freshId createdAt).1
      = CreateReviewResult.created (newReview freshId uid inp createdAt) ∧
    (newReview freshId uid inp createdAt).status = Status.pending ∧
    (newReview freshId uid inp createdAt).blockchainHash = "" ∧
    (findReview (processReviewWithAI (createReview s uid inp freshId createdAt).2 freshId)
        freshId).map Review.blockchainHash
      = some (generateHash (hashRecordOf (newReview freshId uid inp createdAt))) := by
  have hcr : createReview s uid inp freshId createdAt
      = (CreateReviewResult.created (newReview freshId uid inp createdAt),
         updateUserById { s with reviews := s.reviews ++ [newReview freshId uid inp createdAt] }
           uid (fun u => { u with reviewCount := u.reviewCount + 1 })) := by
    unfold createReview
    rw [hvalid, hnone]
    simp only [Bool.not_true]
    rw [if_neg (by simp)]
  have hp : ((newReview freshId uid inp createdAt).id == freshId) = true := by
    show (freshId == freshId) = true
    simp
  have hfind : findReview (createReview s uid inp freshId createdAt).2 freshId
      = some (newReview freshId uid inp createdAt) := by
    rw [hcr]
    show (s.reviews ++ [newReview freshId uid inp createdAt]).find? (fun r => r.id == freshId)
      = some (newReview freshId uid inp createdAt)
    rw [List.find?_append]
    rw [List.find?_eq_none.mpr (fun x hx => by simp [hfresh x hx])]
    rw [@List.find?_cons_of_pos Review (fun r => r.id == freshId)
      (newReview freshId uid inp createdAt) [] hp]
    rfl
  refine ⟨by rw [hcr], rfl, rfl, ?_⟩
  unfold processReviewWithAI
  rw [hfind]
  rw [findReview_updateReviewById (createReview s uid inp freshId createdAt).2 freshId
    (enrichFields (newReview freshId uid inp createdAt)) (fun x => rfl), hfind]
  rfl

/-- C2 witness: submitting `inputW` as `u1` into the review-free store. -/
theorem c2_create_pending_then_hash_witness :
    (createReview storeUsersOnly "u1" inputW "r7" "2024-04-01T00:00:00.000Z").1
      = CreateReviewResult.created (newReview "r7" "u1" inputW "2024-04-01T00:00:00.000Z") ∧
    (newReview "r7" "u1" inputW "2024-04-01T00:00:00.000Z").status = Status.pending ∧
    (newReview "r7" "u1" inputW "2024-04-01T00:00:00.000Z").blockchainHash = "" ∧
    (findReview (processReviewWithAI
        (createReview storeUsersOnly "u1" inputW "r7" "2024-04-01T00:00:00.000Z").2 "r7")
        "r7").map Review.blockchainHash
      = some (generateHash (hashRecordOf (newReview "r7" "u1" inputW "2024-04-01T00:00:00.000Z"))) :=
  c2_create_pending_then_hash storeUsersOnly "u1" inputW "r7" "2024-04-01T00:00:00.000Z"
    (by decide) (by decide) (by decide)

/-! ## C7 — every listed review satisfies the effective filter -/

/-- A status whose stored string is `"approved"` is `approved`. -/
theorem status_eq_approved_of_beq (st : Status) (h : (st.toStr == "approved") = true) :
    st = Status.approved := by
  cases st
  · exact absurd h (by decide)
  · rfl
  · exact absurd h (by decide)

/-- C7: every review of a `GET /api/reviews` result page matches the
effective query: a non-admin caller only ever receives `approved` reviews,
whatever status was requested, and any requested category, sentiment and
rating filters hold of every returned record. -/
theorem c7_getReviews_filter (s : Store) (reqUser : Option AuthUser) (p : ReviewsQueryParams)
    (sortRel : Review → Review → Prop) [DecidableRel sortRel]
    (textMatch : String → Review → Bool) (r : Review)
    (hmem : r ∈ getReviewsPage s reqUser p sortRel textMatch) :
    (isAdmin reqUser = false → r.status = Status.approved) ∧
    (∀ c, p.category = some c → r.category = c) ∧
    (∀ sm, p.sentiment = some sm → r.sentiment = sm) ∧
    (∀ rt, p.rating = some rt → r.rating = rt) := by
  unfold getReviewsPage at hmem
  have h1 := List.mem_of_mem_drop (List.mem_of_mem_take hmem)
  rw [List.mem_insertionSort, List.mem_filter] at h1
  have hq := h1.2
  unfold matchesQuery at hq
  simp only [Bool.and_eq_true] at hq
  have hst := hq.1.1.1.1.1
  have hcat := hq.1.1.1.1.2
  have hsent := hq.1.1.1.2
  have hrat := hq.1.1.2
  refine ⟨?_, ?_, ?_, ?_⟩
  · intro hadmin
    have hqs : (buildReviewQuery reqUser p).status = some "approved" := by
      unfold buildReviewQuery
      rw [hadmin]
      rfl
    rw [hqs] at hst
    exact status_eq_approved_of_beq r.status hst
  · intro c hc
    have hc2 : (match p.category with
        | some c => r.category == c
        | none => true) = true := hcat
    rw [hc] at hc2
    exact eq_of_beq hc2
  · intro sm hsm
    have hs2 : (match p.sentiment with
        | some sm => r.sentiment == sm
        | none => true) = true := hsent
    rw [hsm] at hs2
    exact eq_of_beq hs2
  · intro rt hrt
    have hr2 : (match p.rating with
        | some rt => r.rating == rt
        | none => true) = true := hrat
    rw [hrt] at hr2
    exact eq_of_beq hr2

/-- C7 witness: in `storeTwo` an unauthenticated list with a requested
`pending` status and the Technology category returns `reviewApproved`,
which the theorem shows approved. -/
theorem c7_getReviews_filter_witness : reviewApproved.status = Status.approved :=
  (c7_getReviews_filter storeTwo none paramsW trivialSortRel (fun _ _ => true) reviewApproved
    (by rw [show getReviewsPage storeTwo none paramsW trivialSortRel (fun _ _ => true)
          = [reviewApproved] from rfl]
        exact List.mem_cons_self _ _)).1 rfl

/-! ## C4 — the fallback analyzer classifies by the claimed rule order -/

/-- C4: on every input, `fallbackAnalysis` produces exactly the sentiment
label and score of the claim's rule order — positive when `rating >= 4` or
the positive word count exceeds the negative one, with the clamped score
`clamp(0.3 + (rating-3)*0.2 + positiveCount*0.1, -1, 1)`; else negative
when `rating <= 2` or the negative count exceeds the positive one, with the
mirrored clamped score; else neutral with score `(rating-3)*0.1` (the
word counts being the number of fixed-list words occurring in the
lower-cased concatenation of title and content, as `countListWords`
embeds the source's `filter(word => text.includes(word)).length`). -/
theorem c4_fallback_classification (inp : AnalyzeInput) :
    (fallbackAnalysis inp).sentiment = (claimClassification inp).1 ∧
    (fallbackAnalysis inp).score = (claimClassification inp).2 := by
  unfold fallbackAnalysis claimClassification
  dsimp only
  split_ifs with h1 h2
  · exact ⟨rfl, rfl⟩
  · exact ⟨rfl, rfl⟩
  · refine ⟨rfl, ?_⟩
    dsimp only
    push_neg at h1 h2
    have h3 : inp.rating = 3 := by omega
    rw [h3]
    norm_num

/-! ## C9 — the fallback analyzer's fake detection -/

/-- C9: `fallbackAnalysis` sets `isFake` exactly when the content is
shorter than 20 characters or splits (on single spaces, the source's
`content.split(' ')`) into fewer than 10 pieces, and sets `fakeConfidence`
to 0.8 exactly when the length condition holds and 0.2 otherwise; in
particular the input `{title: "x", content: "bad", rating: 1}` is marked
fake with confidence 0.8 for every product name. -/
theorem c9_fake_detection :
    (∀ inp : AnalyzeInput,
      ((fallbackAnalysis inp).isFake = true ↔
        (inp.content.length < 20 ∨ (jsSplitChar ' ' inp.content.data).length < 10)) ∧
      (fallbackAnalysis inp).fakeConfidence
        = (if inp.content.length < 20 then (8 : ℚ)/10 else 2/10)) ∧
    (∀ productName : String,
      (fallbackAnalysis
        { title := "x", content := "bad", rating := 1, productName := productName }).isFake
          = true ∧
      (fallbackAnalysis
        { title := "x", content := "bad", rating := 1, productName := productName }).fakeConfidence
          = 8/10) := by
  constructor
  · intro inp
    constructor
    · show (decide (inp.content.length < 20)
        || decide ((jsSplitChar ' ' inp.content.data).length < 10)) = true ↔ _
      simp [Bool.or_eq_true, decide_eq_true_eq]
    · rfl
  · intro productName
    exact ⟨rfl, rfl⟩

/-! ## C8 — the retry schedule of `ApiService.retryRequest` -/

/-- The delays a `retryRequest` run sleeps: successive entries of the
schedule `1000 * (MAX_RETRIES - retries + 1 + i)`, at most `retries` of
them, each emitted only after a retryable error at the matching attempt. -/
theorem retryRequest_delays_spec {α : Type} (fn : Nat → Except JsError α) :
    ∀ retries attempt, retries ≤ MAX_RETRIES →
      ((retryRequest fn attempt retries).2
        = (List.range (retryRequest fn attempt retries).2.length).map
            (fun i => 1000 * (MAX_RETRIES - retries + 1 + i))) ∧
      (retryRequest fn attempt retries).2.length ≤ retries ∧
      (∀ k, k < (retryRequest fn attempt retries).2.length →
        ∃ e, fn (attempt + k) = Except.error e ∧ isRetryableError e = true) := by
  intro retries
  induction retries with
  | zero =>
    intro attempt _
    rcases h : fn attempt with e | v
    · simp [retryRequest, h]
    · simp [retryRequest, h]
  | succ r ih =>
    intro attempt hle
    rcases h : fn attempt with e | v
    · by_cases hret : isRetryableError e = true
      · have hrun : retryRequest fn attempt (r + 1)
            = ((retryRequest fn (attempt + 1) r).1,
               1000 * (MAX_RETRIES - (r + 1) + 1) :: (retryRequest fn (attempt + 1) r).2) := by
          simp only [retryRequest]
          rw [h]
          dsimp only
          rw [if_pos hret]
        obtain ⟨ih1, ih2, ih3⟩ := ih (attempt + 1) (by omega)
        rw [hrun]
        dsimp only
        refine ⟨?_, ?_, ?_⟩
        · rw [List.length_cons, List.range_succ_eq_map, List.map_cons, List.map_map]
          refine List.cons_eq_cons.mpr ⟨by simp, ?_⟩
          rw [ih1]
          simp only [List.length_map, List.length_range]
          apply List.map_congr_left
          intro i _
          show 1000 * (MAX_RETRIES - r + 1 + i)
            = 1000 * (MAX_RETRIES - (r + 1) + 1 + Nat.succ i)
          have hM : MAX_RETRIES = 3 := rfl
          rw [hM]
          rw [hM] at hle
          omega
        · rw [List.length_cons]
          omega
        · intro k hk
          match k with
          | 0 => exact ⟨e, by simpa using h, hret⟩
          | k + 1 =>
            obtain ⟨e2, he2, hret2⟩ := ih3 k (by simpa using hk)
            refine ⟨e2, ?_, hret2⟩
            have hadd : attempt + (k + 1) = attempt + 1 + k := by omega
            rw [hadd]
            exact he2
      · have hrun : retryRequest fn attempt (r + 1)
            = ((Except.error e : Except JsError α), ([] : List Nat)) := by
          simp only [retryRequest]
          rw [h]
          dsimp only
          rw [if_neg hret]
        rw [hrun]
        simp
    · simp [retryRequest, h]

/-- C8 (as amended): every `retryRequest` run's delay list is an initial
segment of the 1s/2s/3s backoff schedule — so at most `MAX_RETRIES` retries
after the initial attempt, at most 4 attempts in all; every delay is slept
only after a retryable error (network-level `TypeError`, 5xx, or 429) at
the matching attempt; and a non-retryable first error is rethrown at once,
with no retry and no delay. -/
theorem c8_retry_backoff {α : Type} (fn : Nat → Except JsError α) :
    List.IsPrefix (retryRequest fn 0 MAX_RETRIES).2 [1000, 2000, 3000] ∧
    attemptsMade (retryRequest fn 0 MAX_RETRIES) ≤ 4 ∧
    (∀ k, k < (retryRequest fn 0 MAX_RETRIES).2.length →
      ∃ e, fn k = Except.error e ∧ isRetryableError e = true) ∧
    (∀ e, fn 0 = Except.error e → isRetryableError e = false →
      retryRequest fn 0 MAX_RETRIES = (Except.error e, [])) := by
  obtain ⟨h1, h2, h3⟩ := retryRequest_delays_spec fn MAX_RETRIES 0 le_rfl
  have hsched : [1000, 2000, 3000]
      = (List.range 3).map (fun i => 1000 * (MAX_RETRIES - MAX_RETRIES + 1 + i)) := by
    decide
  have hM : MAX_RETRIES = 3 := rfl
  have hlen3 : (retryRequest fn 0 MAX_RETRIES).2.length ≤ 3 := le_trans h2 (le_of_eq hM)
  have hmin : (retryRequest fn 0 MAX_RETRIES).2.length ⊓ 3
      = (retryRequest fn 0 MAX_RETRIES).2.length := Nat.min_eq_left hlen3
  have hlen : (retryRequest fn 0 MAX_RETRIES).2
      = [1000, 2000, 3000].take (retryRequest fn 0 MAX_RETRIES).2.length := by
    rw [hsched, ← List.map_take, List.take_range, hmin]
    exact h1
  refine ⟨?_, ?_, ?_, ?_⟩
  · refine ⟨[1000, 2000, 3000].drop (retryRequest fn 0 MAX_RETRIES).2.length, ?_⟩
    nth_rewrite 1 [hlen]
    exact List.take_append_drop _ _
  · unfold attemptsMade
    omega
  · intro k hk
    simpa using h3 k hk
  · intro e he hret
    rw [show MAX_RETRIES = 2 + 1 from rfl]
    simp only [retryRequest]
    rw [he]
    dsimp only
    rw [if_neg (by rw [hret]; simp)]

/-- C8 counterexample to the claim as stated: with every attempt throwing a
network error, `retryRequest` performs 4 attempts — the initial attempt and
`MAX_RETRIES = 3` retries, sleeping 1s, 2s, 3s — not "up to 3 attempts". -/
theorem c8_backoff_counterexample :
    attemptsMade (retryRequest allNetworkFailures 0 MAX_RETRIES) = 4 ∧
    ¬ (attemptsMade (retryRequest allNetworkFailures 0 MAX_RETRIES) ≤ 3) ∧
    (retryRequest allNetworkFailures 0 MAX_RETRIES).2 = [1000, 2000, 3000] := by
  decide

/-- C8 witness: the amended theorem applied to the all-failures request
function. -/
theorem c8_retry_backoff_witness :
    List.IsPrefix (retryRequest allNetworkFailures 0 MAX_RETRIES).2 [1000, 2000, 3000] :=
  (c8_retry_backoff allNetworkFailures).1

/-! ## C3 — `generateHash` is deterministic canonical-JSON SHA-256 -/

/-- `charsLe` is total. -/
theorem charsLe_total (a : List Char) : ∀ b, charsLe a b = true ∨ charsLe b a = true := by
  induction a with
  | nil =>
    intro b
    left
    rfl
  | cons x xs ih =>
    intro b
    cases b with
    | nil =>
      right
      rfl
    | cons y ys =>
      unfold charsLe
      rcases lt_trichotomy x y with hxy | hxy | hxy
      · left
        rw [if_pos hxy]
      · subst hxy
        simp only [if_neg (lt_irrefl x)]
        exact ih ys
      · right
        rw [if_pos hxy]

/-- `charsLe` is transitive. -/
theorem charsLe_trans (a : List Char) :
    ∀ b c, charsLe a b = true → charsLe b c = true → charsLe a c = true := by
  induction a with
  | nil =>
    intro b c _ _
    rfl
  | cons x xs ih =>
    intro b c hab hbc
    cases b with
    | nil => exact absurd hab (by simp [charsLe])
    | cons y ys =>
      cases c with
      | nil => exact absurd hbc (by simp [charsLe])
      | cons z zs =>
        unfold charsLe at hab hbc ⊢
        by_cases hxy : x < y
        · by_cases hyz : y < z
          · rw [if_pos (lt_trans hxy hyz)]
          · by_cases hzy : z < y
            · rw [if_neg hyz, if_pos hzy] at hbc
              exact absurd hbc (by simp)
            · have heq : y = z := le_antisymm (not_lt.mp hzy) (not_lt.mp hyz)
              subst heq
              rw [if_pos hxy]
        · by_cases hyx : y < x
          · rw [if_neg hxy, if_pos hyx] at hab
            exact absurd hab (by simp)
          · have heq : x = y := le_antisymm (not_lt.mp hyx) (not_lt.mp hxy)
            subst heq
            rw [if_neg hxy, if_neg hyx] at hab
            by_cases hxz : x < z
            · rw [if_pos hxz]
            · by_cases hzx : z < x
              · rw [if_neg hxz, if_pos hzx] at hbc
                exact absurd hbc (by simp)
              · rw [if_neg hxz, if_neg hzx] at hbc ⊢
                exact ih ys zs hab hbc

/-- `charsLe` is antisymmetric. -/
theorem charsLe_antisymm (a : List Char) :
    ∀ b, charsLe a b = true → charsLe b a = true → a = b := by
  induction a with
  | nil =>
    intro b _ hba
    cases b with
    | nil => rfl
    | cons y ys => exact absurd hba (by simp [charsLe])
  | cons x xs ih =>
    intro b hab hba
    cases b with
    | nil => exact absurd hab (by simp [charsLe])
    | cons y ys =>
      unfold charsLe at hab hba
      by_cases hxy : x < y
      · rw [if_neg (lt_asymm hxy), if_pos hxy] at hba
        exact absurd hba (by simp)
      · by_cases hyx : y < x
        · rw [if_neg hxy, if_pos hyx] at hab
          exact absurd hab (by simp)
        · have heq : x = y := le_antisymm (not_lt.mp hyx) (not_lt.mp hxy)
          subst heq
          rw [if_neg hxy, if_neg hxy] at hab hba
          rw [ih ys hab hba]

/-- Strings with equal character lists are equal. -/
theorem stringDataEq {a b : String} (h : a.data = b.data) : a = b :=
  congrArg String.mk h

/-- Every hex digit character the encoder picks is one of the sixteen
lowercase digits (the default also is one). -/
theorem hexDigitChar_mem (n : Nat) : hexDigitChar n ∈ hexDigits := by
  unfold hexDigitChar
  rw [List.getD_eq_getElem?_getD]
  rcases h : hexDigits[n]? with _ | c
  · decide
  · simpa using List.getElem?_mem h

/-- Every character of `n.toString(16)` is a lowercase hex digit. -/
theorem natToHexDigits_mem (n : Nat) : ∀ c ∈ natToHexDigits n, c ∈ hexDigits := by
  induction n using Nat.strong_induction_on with
  | _ n ih =>
    unfold natToHexDigits
    split
    · intro c hc
      rw [List.mem_singleton] at hc
      subst hc
      exact hexDigitChar_mem n
    · intro c hc
      rw [List.mem_append] at hc
      rcases hc with hc | hc
      · exact ih (n / 16) (Nat.div_lt_self (by omega) (by omega)) c hc
      · rw [List.mem_singleton] at hc
        subst hc
        exact hexDigitChar_mem (n % 16)

/-- Every character of a padded hex byte is a lowercase hex digit. -/
theorem byteToHex_mem (b : Nat) : ∀ c ∈ byteToHex b, c ∈ hexDigits := by
  intro c hc
  unfold byteToHex jsPadStart2 at hc
  rw [List.mem_append] at hc
  rcases hc with hc | hc
  · rw [List.eq_of_mem_replicate hc]
    decide
  · exact natToHexDigits_mem b c hc

/-- Every character of a joined hex digest is a lowercase hex digit. -/
theorem hexOfBytes_mem (bytes : List Nat) : ∀ c ∈ (hexOfBytes bytes).data, c ∈ hexDigits := by
  intro c hc
  have hc2 : c ∈ (bytes.map byteToHex).flatten := hc
  obtain ⟨l, hl, hcl⟩ := List.mem_flatten.mp hc2
  obtain ⟨b, _, rfl⟩ := List.mem_map.mp hl
  exact byteToHex_mem b c hcl

/-- With distinct keys, looking an entry's key up in the record answers that
entry's value. -/
theorem lookupKey_of_mem (data : List (String × Prim)) (hnd : (data.map Prod.fst).Nodup) :
    ∀ p ∈ data, lookupKey data p.1 = some p.2 := by
  induction data with
  | nil =>
    intro p hp
    exact absurd hp (List.not_mem_nil p)
  | cons q rest ih =>
    rw [List.map_cons, List.nodup_cons] at hnd
    intro p hp
    rcases List.mem_cons.mp hp with hpq | hprest
    · subst hpq
      unfold lookupKey
      rw [@List.find?_cons_of_pos (String × Prim) (fun q2 => q2.1 == p.1) p rest (by simp)]
      rfl
    · have hne : (q.1 == p.1) = false := by
        rw [beq_eq_false_iff_ne]
        intro hq
        exact hnd.1 (hq ▸ List.mem_map_of_mem Prod.fst hprest)
      unfold lookupKey
      rw [@List.find?_cons_of_neg (String × Prim) (fun q2 => q2.1 == p.1) q rest (by simp [hne])]
      exact ih hnd.2 p hprest

/-- The sorted key array is the key projection of the key-sorted entry
list (sorted sequences of the same keys coincide). -/
theorem jsSortedKeys_eq_map_fst (data : List (String × Prim)) :
    jsSortedKeys data
      = (data.insertionSort (fun p q : String × Prim => strLe p.1 q.1 = true)).map Prod.fst := by
  haveI instTot : IsTotal String (fun a b : String => strLe a b = true) :=
    ⟨fun a b => charsLe_total a.data b.data⟩
  haveI instTrans : IsTrans String (fun a b : String => strLe a b = true) :=
    ⟨fun a b c hab hbc => charsLe_trans a.data b.data c.data hab hbc⟩
  haveI instAnti : IsAntisymm String (fun a b : String => strLe a b = true) :=
    ⟨fun a b hab hba => stringDataEq (charsLe_antisymm a.data b.data hab hba)⟩
  haveI instTotP : IsTotal (String × Prim) (fun p q : String × Prim => strLe p.1 q.1 = true) :=
    ⟨fun p q => charsLe_total p.1.data q.1.data⟩
  haveI instTransP : IsTrans (String × Prim) (fun p q : String × Prim => strLe p.1 q.1 = true) :=
    ⟨fun p q s hpq hqs => charsLe_trans p.1.data q.1.data s.1.data hpq hqs⟩
  have h1 : List.Perm (jsSortedKeys data) (data.map Prod.fst) :=
    List.perm_insertionSort _ _
  have h2 : List.Perm
      ((data.insertionSort (fun p q : String × Prim => strLe p.1 q.1 = true)).map Prod.fst)
      (data.map Prod.fst) :=
    List.Perm.map Prod.fst (List.perm_insertionSort _ data)
  have hs1 : List.Sorted (fun a b : String => strLe a b = true) (jsSortedKeys data) :=
    List.sorted_insertionSort _ _
  have hs2 : List.Sorted (fun a b : String => strLe a b = true)
      ((data.insertionSort (fun p q : String × Prim => strLe p.1 q.1 = true)).map Prod.fst) := by
    rw [List.Sorted, List.pairwise_map]
    exact List.sorted_insertionSort _ data
  exact @List.eq_of_perm_of_sorted String (fun a b : String => strLe a b = true) instAnti _ _
    (h1.trans h2.symm) hs1 hs2

/-- With distinct keys in `data`, serializing by key lookup equals
serializing the entries directly, entry list by entry list. -/
theorem filterMap_serialize (data : List (String × Prim)) (hnd : (data.map Prod.fst).Nodup) :
    ∀ l : List (String × Prim), (∀ p ∈ l, p ∈ data) →
      l.filterMap ((fun k => (lookupKey data k).map
          (fun v => jsonQuote k ++ ":" ++ serializePrim v)) ∘ Prod.fst)
        = l.map (fun p => jsonQuote p.1 ++ ":" ++ serializePrim p.2) := by
  intro l
  induction l with
  | nil =>
    intro _
    rfl
  | cons p rest ih =>
    intro hsub
    rw [List.filterMap_cons, List.map_cons]
    have hp : lookupKey data p.1 = some p.2 :=
      lookupKey_of_mem data hnd p (hsub p (List.mem_cons_self p rest))
    have hcomp : ((fun k => (lookupKey data k).map
        (fun v => jsonQuote k ++ ":" ++ serializePrim v)) ∘ Prod.fst) p
        = some (jsonQuote p.1 ++ ":" ++ serializePrim p.2) := by
      show (lookupKey data p.1).map (fun v => jsonQuote p.1 ++ ":" ++ serializePrim v) = _
      rw [hp]
      rfl
    rw [hcomp]
    rw [ih (fun q hq => hsub q (List.mem_cons_of_mem p hq))]

/-- `JSON.stringify(data, Object.keys(data).sort())` is the canonical
serialization the spec describes, for every record with distinct keys. -/
theorem jsStringify_eq_canonical (data : List (String × Prim))
    (hnd : (data.map Prod.fst).Nodup) :
    jsStringifySortedKeys data = canonicalJsonSpec data := by
  unfold jsStringifySortedKeys canonicalJsonSpec
  rw [jsSortedKeys_eq_map_fst data, List.filterMap_map,
    filterMap_serialize data hnd _
      (fun p hp => (List.perm_insertionSort _ data).mem_iff.mp hp)]

/-- C3: `generateHash` is a pure deterministic function of its record —
equal inputs give equal digests — and its digest is exactly `"0x"` followed
by the lowercase-hex SHA-256 of the canonical JSON serialization of the
record with keys in lexicographic order. -/
theorem c3_generateHash_canonical (data : List (String × Prim))
    (hnd : (data.map Prod.fst).Nodup) :
    (∀ data2, data2 = data → generateHash data2 = generateHash data) ∧
    generateHash data = "0x" ++ hexOfBytes (sha256 (utf8Bytes (canonicalJsonSpec data))) ∧
    (∀ c ∈ (hexOfBytes (sha256 (utf8Bytes (canonicalJsonSpec data)))).data, c ∈ hexDigits) := by
  refine ⟨fun _ h => h ▸ rfl, ?_, hexOfBytes_mem _⟩
  unfold generateHash
  rw [jsStringify_eq_canonical data hnd]

/-- C3 witness: the theorem applied to the concrete hash record of
`reviewApproved`, whose five keys are distinct. -/
theorem c3_generateHash_canonical_witness :
    generateHash (hashRecordOf reviewApproved)
      = "0x" ++ hexOfBytes (sha256 (utf8Bytes (canonicalJsonSpec (hashRecordOf reviewApproved)))) :=
  (c3_generateHash_canonical (hashRecordOf reviewApproved) (by decide)).2.1
